import Mathlib

/-!
Verification of the HappyQuotes quote-notification program
(`happyquotes.py`), as a shallow embedding in Lean.

Python strings are modelled as `List Char` where character-level
operations matter (truncation, escaping) and as `String` for the
quote/history records.  `random.choice` is modelled by an arbitrary
index oracle reduced modulo the list length, so theorems quantify over
every possible random outcome.  The history file and its failure modes
are modelled explicitly as an inductive file state.
-/

namespace HappyQuotes

/-- A quote record as stored in `quotes.json`: key `q` is the quotation
text, key `a` the author. -/
structure Quote where
  q : String
  a : String
deriving DecidableEq, Repr

/-- The observable state of the history file (`~/.happyquotes_history`)
when `load_history` runs: absent; present but unreadable (an `OSError`
escapes `open`/`read`); present and readable but not parseable as JSON
(`json.JSONDecodeError`/`ValueError`); or holding a JSON list of
strings. -/
inductive HistFile
  | absent
  | unreadable
  | malformed
  | stored (h : List String)
deriving DecidableEq, Repr

/-- The Python exceptions the modelled functions can raise. -/
inductive PyErr
  | osError
  | indexError
deriving DecidableEq, Repr

/-- File-system state relevant to the history tracker: the history
file's readable state, and whether opening it for writing succeeds
(`save_history` raises `OSError` otherwise). -/
structure FS where
  hist : HistFile
  writable : Bool
deriving DecidableEq, Repr

/-- `load_history()`: returns the parsed history list if the file
exists and parses; returns `[]` if the file is absent or fails to
parse; an `OSError` from opening/reading an existing file is not
caught and propagates. -/
def load_history (fs : FS) : Except PyErr (List String) :=
  match fs.hist with
  | .absent => .ok []
  | .unreadable => .error .osError
  | .malformed => .ok []
  | .stored h => .ok h

/-- `save_history(history)`: overwrites the history file with the given
list; raises `OSError` if the file cannot be opened for writing. -/
def save_history (fs : FS) (history : List String) : Except PyErr FS :=
  if fs.writable then .ok { fs with hist := .stored history } else .error .osError

/-- `random.choice(seq)`: raises `IndexError` on an empty sequence,
otherwise returns one element; the uniformly random draw is modelled
by the arbitrary oracle index `choose`, reduced modulo the length, so
results proved for every `choose` cover every possible draw. -/
def random_choice {α : Type} (choose : Nat) : List α → Except PyErr α
  | [] => .error .indexError
  | a :: rest =>
    .ok ((a :: rest).get ⟨choose % (a :: rest).length, Nat.mod_lt _ (Nat.succ_pos _)⟩)

/-- The list comprehension in `pick_quote`:
`[q for q in quotes if q["q"] not in history]`. -/
def available_filter (history : List String) (quotes : List Quote) : List Quote :=
  quotes.filter (fun q => !(history.contains q.q))

/-- `pick_quote(quotes)`: loads the history, filters the pool down to
quotes whose text is not in the history, resets the history and uses
the whole pool if that filter is empty, then picks one entry with
`random.choice`, appends its text to the history, saves the history,
and returns the chosen quote together with the resulting file
state. -/
def pick_quote (fs : FS) (quotes : List Quote) (choose : Nat) :
    Except PyErr (Quote × FS) :=
  match load_history fs with
  | .error e => .error e
  | .ok history0 =>
    let available0 := available_filter history0 quotes
    let history := if available0.isEmpty then [] else history0
    let available := if available0.isEmpty then quotes else available0
    match random_choice choose available with
    | .error e => .error e
    | .ok quote =>
      match save_history fs (history ++ [quote.q]) with
      | .error e => .error e
      | .ok fs2 => .ok (quote, fs2)

/-- `MAX_QUOTE_LEN = 200`, the notification body length limit. -/
def MAX_QUOTE_LEN : Nat := 200

/-- `INTERVAL = 3600` seconds, the daemon's inter-cycle wait. -/
def INTERVAL : Nat := 3600

/-- Python `s.replace(target, repl)` for a single-character `target`,
on strings viewed as character lists. -/
def pyreplace (target : Char) (repl : List Char) : List Char → List Char
  | [] => []
  | c :: rest => (if c = target then repl else [c]) ++ pyreplace target repl rest

/-- `_applescript_escape(s)`:
`s.replace("\\", "\\\\").replace('"', '\\"')` — first double every
backslash, then prefix every double quote with a backslash. -/
def applescript_escape (s : List Char) : List Char :=
  pyreplace '"' ['\\', '"'] (pyreplace '\\' ['\\', '\\'] s)

/-- The truncation step of `show_notification`: if the message exceeds
`MAX_QUOTE_LEN` characters, keep the first `MAX_QUOTE_LEN - 1` and
append the ellipsis character U+2026. -/
def show_notification_body (message : List Char) : List Char :=
  if message.length > MAX_QUOTE_LEN
  then message.take (MAX_QUOTE_LEN - 1) ++ ['…']
  else message

/-- The AppleScript source `show_notification` writes to its temp file:
`display notification "<escaped body>" with title "<escaped title>"`. -/
def show_notification_script (title message : List Char) : List Char :=
  "display notification \"".toList
    ++ applescript_escape (show_notification_body message)
    ++ "\" with title \"".toList
    ++ applescript_escape title
    ++ ['"']

/-- Modelled from the spec: AppleScript's decoding of a double-quoted
string literal (the transport on the other side of
`_applescript_escape`, not part of the repository): a backslash escapes
the character that follows it; any other character stands for
itself. -/
def applescript_unescape : List Char → List Char
  | [] => []
  | [c] => [c]
  | c :: d :: rest =>
    if c = '\\' then d :: applescript_unescape rest
    else c :: applescript_unescape (d :: rest)

/-- One inter-cycle wait of `daemon_loop`:
`for _ in range(n): if shutdown: break; time.sleep(1)`.
The asynchronous signal handler is modelled by the schedule
`s : Nat → Bool` giving the value of the `shutdown` flag at each
successive read; `k` is the index of the next read.  Returns the next
read index after the wait and the number of one-second sleeps
performed. -/
def sleep_loop (s : Nat → Bool) : Nat → Nat → Nat × Nat
  | 0, k => (k, 0)
  | n + 1, k =>
    if s k then (k + 1, 0)
    else
      let r := sleep_loop s n (k + 1)
      (r.1, r.2 + 1)

/-- `daemon_loop`'s `while not shutdown` loop, with `fuel` bounding the
number of iterations observed.  `f n = true` means the `n`-th call to
`run_once` raises an exception, which the `try/except` catches and
logs (`logging.exception`); `s` is the shutdown-flag read schedule and
`k` the next read index.  Returns the number of cycles executed, `true`
iff the loop exited (the `while` condition saw the flag) within the
given fuel, and the log of cycle indices whose errors were caught. -/
def daemon_run (f : Nat → Bool) (s : Nat → Bool) :
    Nat → Nat → Nat → List Nat → Nat × Bool × List Nat
  | 0, _, cycles, log => (cycles, false, log)
  | fuel + 1, k, cycles, log =>
    if s k then (cycles, true, log)
    else
      let log2 := if f cycles then log ++ [cycles] else log
      let r := sleep_loop s INTERVAL (k + 1)
      daemon_run f s fuel r.1 (cycles + 1) log2

/-! ## Helper lemmas -/

lemma pyreplace_append (t : Char) (r a b : List Char) :
    pyreplace t r (a ++ b) = pyreplace t r a ++ pyreplace t r b := by
  induction a with
  | nil => rfl
  | cons c rest ih => simp [pyreplace, ih]

lemma applescript_escape_cons (c : Char) (s : List Char) :
    applescript_escape (c :: s) = applescript_escape [c] ++ applescript_escape s := by
  show applescript_escape ([c] ++ s) = _
  simp only [applescript_escape]
  rw [pyreplace_append, pyreplace_append]

lemma applescript_escape_single (c : Char) :
    applescript_escape [c] =
      if c = '\\' then ['\\', '\\'] else if c = '"' then ['\\', '"'] else [c] := by
  by_cases h1 : c = '\\'
  · subst h1; rfl
  · by_cases h2 : c = '"'
    · subst h2; rfl
    · simp [applescript_escape, pyreplace, h1, h2]

lemma applescript_unescape_escape (s : List Char) :
    applescript_unescape (applescript_escape s) = s := by
  induction s with
  | nil => rfl
  | cons c rest ih =>
    rw [applescript_escape_cons, applescript_escape_single]
    by_cases h1 : c = '\\'
    · subst h1
      simp [applescript_unescape, ih]
    · by_cases h2 : c = '"'
      · subst h2
        simp [applescript_unescape, ih]
      · simp only [if_neg h1, if_neg h2, List.singleton_append]
        cases hE : applescript_escape rest with
        | nil =>
          rw [hE] at ih
          simp only [applescript_unescape] at ih ⊢
          rw [← ih]
        | cons d l =>
          rw [hE] at ih
          simp [applescript_unescape, h1, ih]

/-! ## Claims about the history tracker -/

/-- Claim C4 counterexample: `load_history` on a history file that
exists but cannot be read does not return an empty history — the
`OSError` is not caught (only `json.JSONDecodeError` and `ValueError`
are) and propagates to the caller. -/
theorem load_history_unreadable_raises :
    load_history ⟨.unreadable, true⟩ = .error .osError := rfl

/-- Claim C4 (amended): `load_history` returns an empty history, and
selection behaves exactly as with an empty history store, when the
history file is absent or holds malformed (unparseable) data; an I/O
error while reading an existing file, however, propagates to the
caller. -/
theorem load_history_corruption_tolerated (w : Bool) (quotes : List Quote) (c : Nat) :
    load_history ⟨.absent, w⟩ = .ok [] ∧
    load_history ⟨.malformed, w⟩ = .ok [] ∧
    pick_quote ⟨.absent, w⟩ quotes c = pick_quote ⟨.stored [], w⟩ quotes c ∧
    pick_quote ⟨.malformed, w⟩ quotes c = pick_quote ⟨.stored [], w⟩ quotes c :=
  ⟨rfl, rfl, rfl, rfl⟩

/-- Claim C5: invoked on an empty pool, `pick_quote` fails — both the
unfiltered and the reset `available` list are empty, so
`random.choice` raises `IndexError` (the code's realization of the
spec's `EmptyPoolError`) and no quote is returned. -/
theorem pick_quote_empty_pool (H : List String) (w : Bool) (c : Nat) :
    pick_quote ⟨.stored H, w⟩ [] c = .error .indexError := rfl

lemma random_choice_of_ne_nil {α : Type} (choose : Nat) (l : List α)
    (h : 0 < l.length) :
    random_choice choose l = .ok (l.get ⟨choose % l.length, Nat.mod_lt _ h⟩) := by
  cases l with
  | nil => simp at h
  | cons a rest => rfl

lemma mem_available_filter (H : List String) (quotes : List Quote) (p : Quote) :
    p ∈ available_filter H quotes ↔ p ∈ quotes ∧ p.q ∉ H := by
  simp [available_filter, List.mem_filter, List.elem_iff]

lemma pick_quote_nonreset (H : List String) (quotes : List Quote) (c : Nat)
    (hne : ∃ q ∈ quotes, q.q ∉ H) :
    ∃ q, q ∈ available_filter H quotes ∧
      pick_quote ⟨.stored H, true⟩ quotes c =
        .ok (q, ⟨.stored (H ++ [q.q]), true⟩) := by
  obtain ⟨q0, hq0, hq0H⟩ := hne
  have hq0A : q0 ∈ available_filter H quotes :=
    (mem_available_filter H quotes q0).mpr ⟨hq0, hq0H⟩
  have hAne : available_filter H quotes ≠ [] := List.ne_nil_of_mem hq0A
  have hAe : (available_filter H quotes).isEmpty = false :=
    List.isEmpty_eq_false.mpr hAne
  have hAl : 0 < (available_filter H quotes).length := List.length_pos.mpr hAne
  refine ⟨(available_filter H quotes).get ⟨c % _, Nat.mod_lt _ hAl⟩,
    List.get_mem _ _ _, ?_⟩
  simp only [pick_quote, load_history, hAe, save_history, Bool.false_eq_true,
    if_false, if_true]
  rw [random_choice_of_ne_nil c _ hAl]

/-- Claim C1: for a non-empty pool and a loaded history `H` that is a
strict subset of the pool's texts, `pick_quote` returns a quote from
the pool whose text is not in `H` (the filtered `available` list is
non-empty, so no reset happens and the choice is made among unseen
quotes). -/
theorem pick_quote_avoids_history (H : List String) (quotes : List Quote) (c : Nat)
    (hsub : ∀ t ∈ H, t ∈ quotes.map Quote.q)
    (hne : ∃ q ∈ quotes, q.q ∉ H) :
    ∃ q fs2, pick_quote ⟨.stored H, true⟩ quotes c = .ok (q, fs2) ∧
      q ∈ quotes ∧ q.q ∉ H := by
  obtain ⟨q, hqA, heq⟩ := pick_quote_nonreset H quotes c hne
  have hm := (mem_available_filter H quotes q).mp hqA
  exact ⟨q, _, heq, hm.1, hm.2⟩

/-- Claim C1 witness: pool `[("hello","A"), ("world","B")]`, history
`["hello"]`. -/
theorem pick_quote_avoids_history_witness :
    ∃ q fs2, pick_quote ⟨.stored ["hello"], true⟩
        [⟨"hello", "A"⟩, ⟨"world", "B"⟩] 0 = .ok (q, fs2) ∧
      q ∈ [Quote.mk "hello" "A", Quote.mk "world" "B"] ∧ q.q ∉ ["hello"] :=
  pick_quote_avoids_history ["hello"] [⟨"hello", "A"⟩, ⟨"world", "B"⟩] 0
    (by decide) (by decide)

/-- Claim C2: when every pool text is already in the loaded history,
`pick_quote` succeeds via the reset path and the persisted history
afterwards is exactly the one-element list holding the newly chosen
quote's text. -/
theorem pick_quote_exhausted_reseeds (H : List String) (quotes : List Quote) (c : Nat)
    (hne : quotes ≠ []) (hall : ∀ q ∈ quotes, q.q ∈ H) :
    ∃ q, pick_quote ⟨.stored H, true⟩ quotes c = .ok (q, ⟨.stored [q.q], true⟩) ∧
      q ∈ quotes := by
  have hA : available_filter H quotes = [] := by
    rw [available_filter, List.filter_eq_nil_iff]
    intro a ha
    simp [List.elem_iff, hall a ha]
  have hl : 0 < quotes.length := List.length_pos.mpr hne
  refine ⟨quotes.get ⟨c % quotes.length, Nat.mod_lt _ hl⟩, ?_, List.get_mem _ _ _⟩
  simp only [pick_quote, load_history, hA, List.isEmpty_nil, save_history,
    Bool.false_eq_true, if_false, if_true]
  rw [random_choice_of_ne_nil c _ hl]
  rfl

/-- Claim C2 witness: pool `[("hello","A"), ("world","B")]`, exhausted
history `["hello", "world"]`. -/
theorem pick_quote_exhausted_reseeds_witness :
    ∃ q, pick_quote ⟨.stored ["hello", "world"], true⟩
        [⟨"hello", "A"⟩, ⟨"world", "B"⟩] 1 = .ok (q, ⟨.stored [q.q], true⟩) ∧
      q ∈ [Quote.mk "hello" "A", Quote.mk "world" "B"] :=
  pick_quote_exhausted_reseeds ["hello", "world"] [⟨"hello", "A"⟩, ⟨"world", "B"⟩] 1
    (by decide) (by decide)

/-- Claim C3 counterexample: with a chooseable quote available but the
history file unwritable, `pick_quote` does not return the chosen quote
— `save_history`'s `OSError` propagates out of `pick_quote` before the
`return`, so the caller receives the exception, not the quote. -/
theorem pick_quote_save_failure_counterexample :
    pick_quote ⟨.stored [], false⟩ [⟨"hello", "A"⟩] 0 = .error .osError := rfl

/-- Claim C3 (amended): if persisting the updated history fails after
a quote has been successfully chosen, `pick_quote` does not return the
chosen quote: the persistence error propagates to its caller (which
logs it — `run_once` never dispatches the quote in that case). -/
theorem pick_quote_save_failure_raises (H : List String) (quotes : List Quote) (c : Nat)
    (hne : quotes ≠ []) :
    pick_quote ⟨.stored H, false⟩ quotes c = .error .osError := by
  cases hA : (available_filter H quotes).isEmpty with
  | true =>
    have hl : 0 < quotes.length := List.length_pos.mpr hne
    simp only [pick_quote, load_history, hA, save_history, Bool.false_eq_true,
      if_false, if_true]
    rw [random_choice_of_ne_nil c _ hl]
  | false =>
    have hAl : 0 < (available_filter H quotes).length :=
      List.length_pos.mpr (List.isEmpty_eq_false.mp hA)
    simp only [pick_quote, load_history, hA, save_history, Bool.false_eq_true,
      if_false, if_true]
    rw [random_choice_of_ne_nil c _ hAl]

/-- Claim C3 witness for the amended statement: two-quote pool, history
`["a"]`, unwritable history file. -/
theorem pick_quote_save_failure_raises_witness :
    pick_quote ⟨.stored ["a"], false⟩ [⟨"a", "b"⟩, ⟨"c", "d"⟩] 0 = .error .osError :=
  pick_quote_save_failure_raises ["a"] [⟨"a", "b"⟩, ⟨"c", "d"⟩] 0 (by decide)

/-- Claim C10: on the non-reset path (some pool text absent from the
loaded history), the persisted history after `pick_quote` is the
loaded history with exactly the chosen quote's text appended at its
end — nothing is removed, altered, or reordered. -/
theorem pick_quote_appends_one (H : List String) (quotes : List Quote) (c : Nat)
    (hne : ∃ q ∈ quotes, q.q ∉ H) :
    ∃ q fs2, pick_quote ⟨.stored H, true⟩ quotes c = .ok (q, fs2) ∧
      fs2.hist = .stored (H ++ [q.q]) := by
  obtain ⟨q, hqA, heq⟩ := pick_quote_nonreset H quotes c hne
  exact ⟨q, _, heq, rfl⟩

/-- Claim C10 witness: pool `[("hello","A"), ("world","B")]`, history
`["hello"]`. -/
theorem pick_quote_appends_one_witness :
    ∃ q fs2, pick_quote ⟨.stored ["hello"], true⟩
        [⟨"hello", "A"⟩, ⟨"world", "B"⟩] 3 = .ok (q, fs2) ∧
      fs2.hist = .stored (["hello"] ++ [q.q]) :=
  pick_quote_appends_one ["hello"] [⟨"hello", "A"⟩, ⟨"world", "B"⟩] 3 (by decide)

/-! ## Claims about the notifier -/

/-- Claim C6: a notification body strictly longer than 200 characters
is dispatched as exactly 200 characters whose last character is the
ellipsis marker U+2026, and is never dispatched untruncated. -/
theorem show_notification_truncates (message : List Char)
    (h : message.length > MAX_QUOTE_LEN) :
    (show_notification_body message).length = MAX_QUOTE_LEN ∧
    (show_notification_body message).getLast? = some '…' ∧
    show_notification_body message ≠ message := by
  have hbody : show_notification_body message = message.take (MAX_QUOTE_LEN - 1) ++ ['…'] :=
    if_pos h
  have hlen : (show_notification_body message).length = MAX_QUOTE_LEN := by
    rw [hbody]
    have h2 : MAX_QUOTE_LEN = 200 := rfl
    rw [h2] at h ⊢
    simp only [List.length_append, List.length_take, List.length_singleton]
    omega
  refine ⟨hlen, ?_, ?_⟩
  · rw [hbody]
    simp
  · intro heq
    rw [heq] at hlen
    omega

set_option maxRecDepth 4000 in
/-- Claim C6 witness at a 201-character body. -/
theorem show_notification_truncates_witness :
    (show_notification_body (List.replicate 201 'a')).length = MAX_QUOTE_LEN ∧
    (show_notification_body (List.replicate 201 'a')).getLast? = some '…' ∧
    show_notification_body (List.replicate 201 'a') ≠ List.replicate 201 'a' :=
  show_notification_truncates (List.replicate 201 'a') (by simp [MAX_QUOTE_LEN])

/-- Claim C9: `_applescript_escape` doubles every backslash and
backslash-prefixes every double quote, so decoding the literal
embedded in the generated script by AppleScript's string rules gives
back exactly the string that was escaped — the post-truncation body
and the title round-trip. -/
theorem applescript_escape_roundtrip (title message : List Char) :
    applescript_unescape (applescript_escape (show_notification_body message)) =
      show_notification_body message ∧
    applescript_unescape (applescript_escape title) = title :=
  ⟨applescript_unescape_escape _, applescript_unescape_escape _⟩

/-! ## Claims about the scheduler -/

lemma daemon_run_log_mono (f s : Nat → Bool) :
    ∀ (fuel k cycles : Nat) (log : List Nat) (x : Nat),
      x ∈ log → x ∈ (daemon_run f s fuel k cycles log).2.2 := by
  intro fuel
  induction fuel with
  | zero =>
    intro k cycles log x hx
    simpa [daemon_run] using hx
  | succ m ih =>
    intro k cycles log x hx
    simp only [daemon_run]
    by_cases hs : s k = true
    · simpa [hs] using hx
    · simp only [hs, Bool.false_eq_true, if_false]
      apply ih
      by_cases hf : f cycles = true
      · simp [hf, List.mem_append, hx]
      · simpa [hf] using hx

/-- Claim C7: in daemon mode, a cycle error is caught and logged, the
loop stays running and executes the next cycle; errors never make the
loop exit.  With no termination request on the schedule (`s` constantly
`false`), the loop performs one cycle per iteration for the whole fuel
budget — whatever cycles fail — never reaches the exited state, and a
failing cycle is recorded in the error log. -/
theorem daemon_loop_resilient (f s : Nat → Bool) (fuel k cycles : Nat)
    (log : List Nat) (hns : ∀ i, s i = false) :
    (daemon_run f s fuel k cycles log).1 = cycles + fuel ∧
    (daemon_run f s fuel k cycles log).2.1 = false ∧
    (f cycles = true → 0 < fuel →
      cycles ∈ (daemon_run f s fuel k cycles log).2.2) := by
  induction fuel generalizing k cycles log with
  | zero => simp [daemon_run]
  | succ m ih =>
    simp only [daemon_run, hns, Bool.false_eq_true, if_false]
    obtain ⟨h1, h2, h3⟩ := ih (sleep_loop s INTERVAL (k + 1)).1 (cycles + 1)
      (if f cycles then log ++ [cycles] else log)
    refine ⟨by rw [h1]; omega, h2, ?_⟩
    intro hf _
    apply daemon_run_log_mono
    simp [hf]

/-- Claim C7 witness: a schedule with no termination request and every
cycle failing. -/
theorem daemon_loop_resilient_witness :
    (daemon_run (fun _ => true) (fun _ => false) 1 0 0 []).1 = 0 + 1 ∧
    (daemon_run (fun _ => true) (fun _ => false) 1 0 0 []).2.1 = false ∧
    0 ∈ (daemon_run (fun _ => true) (fun _ => false) 1 0 0 []).2.2 := by
  have h := daemon_loop_resilient (fun _ => true) (fun _ => false) 1 0 0 []
    (fun i => rfl)
  exact ⟨h.1, h.2.1, h.2.2 rfl (by decide)⟩

lemma sleep_loop_sleeps_bounded (s : Nat → Bool) (j : Nat)
    (hmono : ∀ a b, a ≤ b → s a = true → s b = true) (hj : s j = true) :
    ∀ (n k : Nat), k ≤ j → (sleep_loop s n k).2 ≤ j - k := by
  intro n
  induction n with
  | zero =>
    intro k hk
    simp [sleep_loop]
  | succ m ih =>
    intro k hk
    simp only [sleep_loop]
    by_cases hs : s k = true
    · simp [hs]
    · have hkj : k < j := by
        rcases Nat.lt_or_ge k j with h | h
        · exact h
        · exact absurd (hmono j k h hj) hs
      have hrec := ih (k + 1) hkj
      simp only [hs, Bool.false_eq_true, if_false]
      omega

/-- Claim C8: once the shutdown flag is set (`s j = true`, the handler
having run, and the flag monotone thereafter), the inter-cycle wait
performs no sleep at or after the flag becomes visible — at most the
`j - k` one-second slices that preceded delivery, far fewer than the
3600 of a full interval — a wait that observes the flag stops at once,
and the `while` check exits the loop cleanly: no new cycle is started
and nothing more is logged. -/
theorem daemon_loop_prompt_shutdown (f s : Nat → Bool)
    (fuel n k j cycles : Nat) (log : List Nat)
    (hmono : ∀ a b, a ≤ b → s a = true → s b = true) (hj : s j = true) :
    (k ≤ j → (sleep_loop s n k).2 ≤ j - k) ∧
    (s k = true → 0 < n → sleep_loop s n k = (k + 1, 0)) ∧
    (j ≤ k → 0 < fuel → daemon_run f s fuel k cycles log = (cycles, true, log)) := by
  refine ⟨fun hk => sleep_loop_sleeps_bounded s j hmono hj n k hk, ?_, ?_⟩
  · intro hs hn
    cases n with
    | zero => exact absurd hn (by omega)
    | succ m => simp [sleep_loop, hs]
  · intro hjk hf
    have hsk : s k = true := hmono j k hjk hj
    cases fuel with
    | zero => exact absurd hf (by omega)
    | succ m => simp [daemon_run, hsk]

/-- Claim C8 witness: flag delivered at read 1, loop observed at read 1. -/
theorem daemon_loop_prompt_shutdown_witness :
    ((sleep_loop (fun i => decide (1 ≤ i)) 5 1).2 ≤ 1 - 1) ∧
    (sleep_loop (fun i => decide (1 ≤ i)) 5 1 = (1 + 1, 0)) ∧
    (daemon_run (fun _ => false) (fun i => decide (1 ≤ i)) 3 1 0 [] = (0, true, [])) := by
  have h := daemon_loop_prompt_shutdown (fun _ => false) (fun i => decide (1 ≤ i))
    3 5 1 1 0 []
    (by intro a b hab ha; simp only [decide_eq_true_eq] at ha ⊢; omega)
    (by decide)
  exact ⟨h.1 (le_refl 1), h.2.1 (by decide) (by decide), h.2.2 (le_refl 1) (by decide)⟩

end HappyQuotes
